import Mathlib

/-!
Verification of the meadowgrid coordinator protocol (meadowdata/meadowflow).

The embedding below follows `src/protobuf_definitions/meadowgrid/meadowgrid.proto`
for all data shapes (the process-state enumeration, job fields, requests and
responses).  The coordinator's behaviour (job registry, resource ledger,
grid-task registry, credential store) is modelled from the specification's
operation descriptions; each such definition is marked `Modelled from the
spec:` in its doc comment.  Protobuf `float` resource values are modelled as
exact rationals; pickled payloads are opaque byte lists.
-/

namespace Meadowgrid

/-- `ProcessState.ProcessStateEnum` from `meadowgrid.proto` (lines 260-317):
the ten declared values, in declaration order. -/
inductive ProcessStateEnum where
  | DEFAULT
  | RUN_REQUESTED
  | RUNNING
  | SUCCEEDED
  | RUN_REQUEST_FAILED
  | PYTHON_EXCEPTION
  | NON_ZERO_RETURN_CODE
  | RESOURCES_NOT_AVAILABLE
  | ERROR_GETTING_STATE
  | UNKNOWN
  deriving DecidableEq, Repr

open ProcessStateEnum

/-- The name/number pairs of `ProcessState.ProcessStateEnum` exactly as declared
in `meadowgrid.proto`: `DEFAULT = 0; ... UNKNOWN = 9;`.  This is the complete
enumeration; in particular no `CANCELLED` value is declared. -/
def processStateEnumDecl : List (String × Nat) :=
  [("DEFAULT", 0), ("RUN_REQUESTED", 1), ("RUNNING", 2), ("SUCCEEDED", 3),
   ("RUN_REQUEST_FAILED", 4), ("PYTHON_EXCEPTION", 5), ("NON_ZERO_RETURN_CODE", 6),
   ("RESOURCES_NOT_AVAILABLE", 7), ("ERROR_GETTING_STATE", 8), ("UNKNOWN", 9)]

/-- The proto name of each enumeration value. -/
def ProcessStateEnum.protoName : ProcessStateEnum → String
  | DEFAULT => "DEFAULT"
  | RUN_REQUESTED => "RUN_REQUESTED"
  | RUNNING => "RUNNING"
  | SUCCEEDED => "SUCCEEDED"
  | RUN_REQUEST_FAILED => "RUN_REQUEST_FAILED"
  | PYTHON_EXCEPTION => "PYTHON_EXCEPTION"
  | NON_ZERO_RETURN_CODE => "NON_ZERO_RETURN_CODE"
  | RESOURCES_NOT_AVAILABLE => "RESOURCES_NOT_AVAILABLE"
  | ERROR_GETTING_STATE => "ERROR_GETTING_STATE"
  | UNKNOWN => "UNKNOWN"

/-- The proto tag number of each enumeration value. -/
def ProcessStateEnum.protoTag : ProcessStateEnum → Nat
  | DEFAULT => 0
  | RUN_REQUESTED => 1
  | RUNNING => 2
  | SUCCEEDED => 3
  | RUN_REQUEST_FAILED => 4
  | PYTHON_EXCEPTION => 5
  | NON_ZERO_RETURN_CODE => 6
  | RESOURCES_NOT_AVAILABLE => 7
  | ERROR_GETTING_STATE => 8
  | UNKNOWN => 9

/-- All values of the enumeration, in declaration order. -/
def ProcessStateEnum.all : List ProcessStateEnum :=
  [DEFAULT, RUN_REQUESTED, RUNNING, SUCCEEDED, RUN_REQUEST_FAILED, PYTHON_EXCEPTION,
   NON_ZERO_RETURN_CODE, RESOURCES_NOT_AVAILABLE, ERROR_GETTING_STATE, UNKNOWN]

/-- Terminal ("done") process states.  From `meadowgrid.proto`: the values
declared under the comment "These states represent a job that is done" are
`SUCCEEDED`, `RUN_REQUEST_FAILED`, `PYTHON_EXCEPTION`, `NON_ZERO_RETURN_CODE`,
`RESOURCES_NOT_AVAILABLE` and `ERROR_GETTING_STATE`; `UNKNOWN` is declared as
"neither done nor in progress" and `DEFAULT` is "Reserved, not used". -/
def isTerminal : ProcessStateEnum → Bool
  | SUCCEEDED => true
  | RUN_REQUEST_FAILED => true
  | PYTHON_EXCEPTION => true
  | NON_ZERO_RETURN_CODE => true
  | RESOURCES_NOT_AVAILABLE => true
  | ERROR_GETTING_STATE => true
  | _ => false

/-- In-progress process states, per the proto comment "These states represent a
job that is in progress": `RUN_REQUESTED` and `RUNNING`. -/
def isInProgress : ProcessStateEnum → Bool
  | RUN_REQUESTED => true
  | RUNNING => true
  | _ => false

/-- Modelled from the spec: the state-update rule shared by
`update_job_state(s)` and `update_task` / `update_grid_task_state_and_get_next`
(the coordinator implementation is not in the source tree).  Spec 4.1: "Only
allowed if current state is non-terminal or equals the new state (idempotent
retry). Any attempt to transition out of a terminal state is ignored and
logged."; spec 4.3: "Write-once for terminal states; otherwise overwrites." -/
def applyStateUpdate (cur new : ProcessStateEnum) : ProcessStateEnum :=
  if isTerminal cur && !(new == cur) then cur else new

theorem applyStateUpdate_of_terminal (cur new : ProcessStateEnum)
    (h : isTerminal cur = true) : applyStateUpdate cur new = cur := by
  by_cases hn : new = cur
  · simp [applyStateUpdate, hn]
  · simp [applyStateUpdate, h, hn]

theorem applyStateUpdate_of_nonterminal (cur new : ProcessStateEnum)
    (h : isTerminal cur = false) : applyStateUpdate cur new = new := by
  simp [applyStateUpdate, h]

/-! ## Resource ledger -/

/-- A protobuf `repeated Resource` (`Resource { string name; float value; }`),
with the `float` value modelled as an exact rational. -/
abbrev ResourceList := List (String × ℚ)

/-- The value of component `n` of a resource vector: the sum of the values of
all entries named `n` (0 when absent; for a well-formed vector, whose names are
distinct, this is the unique entry's value). -/
def resourceAt (r : ResourceList) (n : String) : ℚ :=
  ((r.filter (fun p => p.1 = n)).map Prod.snd).sum

/-- Component `n` of the component-wise sum of a list of resource vectors. -/
def activeSum (rs : List ResourceList) (n : String) : ℚ :=
  (rs.map (fun r => resourceAt r n)).sum

/-- A well-formed resource vector: distinct names and non-negative values
(spec 3: "map name→nonneg float"; job submission validates non-negativity). -/
def wfResourceList (r : ResourceList) : Bool :=
  decide (r.map Prod.fst).Nodup && r.all (fun p => decide (0 ≤ p.2))

/-- Modelled from the spec: one agent's entry in the resource ledger (the
ledger implementation is not in the source tree).  `totals` and `avail` are the
agent's total and currently-available resource vectors; `active` is the
multiset of requirements of the agent's active (reserved, not yet released)
reservations; `jobAffinity` is the `job_id` field of `RegisterAgentRequest`
(empty for generic agents). -/
structure AgentRec where
  totals : ResourceList
  avail : String → ℚ
  active : List ResourceList
  jobAffinity : String

/-- A newly-registered agent: available equals totals, no active reservations. -/
def freshAgent (resources : ResourceList) (jobId : String) : AgentRec :=
  { totals := resources, avail := fun n => resourceAt resources n,
    active := [], jobAffinity := jobId }

/-- Spec 4.2 `reserve` guard: "succeeds iff every requested component ≤
available". -/
def fitsAvail (r : ResourceList) (avail : String → ℚ) : Bool :=
  r.all (fun p => decide (p.2 ≤ avail p.1))

/-- Remove the first occurrence of `r` (release retires one matching active
reservation). -/
def removeFirst (r : ResourceList) : List ResourceList → List ResourceList
  | [] => []
  | q :: rest => if q = r then rest else q :: removeFirst r rest

/-- Modelled from the spec: `reserve(agent_id, requirement) → bool`.  "Atomic:
succeeds iff every requested component ≤ available, and then subtracts." -/
def reserveResources (a : AgentRec) (r : ResourceList) : AgentRec × Bool :=
  if fitsAvail r a.avail then
    ({ a with avail := fun n => a.avail n - resourceAt r n, active := r :: a.active }, true)
  else (a, false)

/-- Modelled from the spec: `release(agent_id, requirement)`.  "Adds back";
the released requirement retires the matching active reservation. -/
def releaseResources (a : AgentRec) (r : ResourceList) : AgentRec :=
  { a with avail := fun n => a.avail n + resourceAt r n,
           active := removeFirst r a.active }

/-- The in-memory ledger: agents keyed by agent id. -/
abbrev Ledger := List (String × AgentRec)

def lookupAgent : Ledger → String → Option AgentRec
  | [], _ => none
  | (k, a) :: rest, i => if k = i then some a else lookupAgent rest i

def updateAgent (f : AgentRec → AgentRec) : Ledger → String → Ledger
  | [], _ => []
  | (k, a) :: rest, i => if k = i then (k, f a) :: rest else (k, a) :: updateAgent f rest i

/-- Modelled from the spec: `register(agent_id, totals, optional job_affinity)`.
"Idempotent on same id with same totals; conflicting re-registration resets
available to totals and releases prior reservations." -/
def register_agent (st : Ledger) (agentId : String) (resources : ResourceList)
    (jobId : String) : Ledger :=
  match lookupAgent st agentId with
  | none => st ++ [(agentId, freshAgent resources jobId)]
  | some a =>
      if a.totals = resources then st
      else updateAgent (fun _ => freshAgent resources jobId) st agentId

/-- One ledger operation: the register / reserve / release interface of
spec 4.2, addressed to one agent. -/
inductive LedgerOp where
  | register (agentId : String) (resources : ResourceList) (jobId : String)
  | reserve (agentId : String) (r : ResourceList)
  | release (agentId : String) (r : ResourceList)

def ledgerStep (st : Ledger) : LedgerOp → Ledger
  | .register aid res jid => register_agent st aid res jid
  | .reserve aid r => updateAgent (fun a => (reserveResources a r).1) st aid
  | .release aid r => updateAgent (fun a => releaseResources a r) st aid

def runLedger (st : Ledger) : List LedgerOp → Ledger
  | [] => st
  | op :: rest => runLedger (ledgerStep st op) rest

/-- Well-formed ledger operation: registered totals and reserved requirements
are well-formed vectors, and a release matches an active reservation of the
addressed agent (spec 4.2: release "never exceeds totals (bug if it would)" —
the scheduler only releases what it previously reserved). -/
def wfLedgerOp (st : Ledger) : LedgerOp → Bool
  | .register _ res _ => wfResourceList res
  | .reserve _ r => wfResourceList r
  | .release aid r =>
      match lookupAgent st aid with
      | none => true
      | some a => decide (r ∈ a.active)

def wfLedgerOps : Ledger → List LedgerOp → Bool
  | _, [] => true
  | st, op :: rest => wfLedgerOp st op && wfLedgerOps (ledgerStep st op) rest

/-- The per-agent ledger invariant. -/
def AgentInv (a : AgentRec) : Prop :=
  (∀ n, a.avail n = resourceAt a.totals n - activeSum a.active n) ∧
  (∀ p ∈ a.totals, 0 ≤ p.2) ∧
  (∀ n, 0 ≤ a.avail n) ∧
  (∀ r ∈ a.active, ∀ p ∈ r, 0 ≤ p.2)

def LedgerInv (st : Ledger) : Prop := ∀ p ∈ st, AgentInv p.2

theorem resourceAt_nonneg (r : ResourceList) (n : String)
    (h : ∀ p ∈ r, 0 ≤ p.2) : 0 ≤ resourceAt r n := by
  apply List.sum_nonneg
  intro x hx
  simp only [List.mem_map, List.mem_filter] at hx
  obtain ⟨p, ⟨hp, _⟩, rfl⟩ := hx
  exact h p hp

theorem resourceAt_cons (p : String × ℚ) (rest : ResourceList) (n : String) :
    resourceAt (p :: rest) n = (if p.1 = n then p.2 else 0) + resourceAt rest n := by
  by_cases he : p.1 = n <;> simp [resourceAt, List.filter_cons, he]

theorem resourceAt_of_not_mem_keys (r : ResourceList) (n : String)
    (h : n ∉ r.map Prod.fst) : resourceAt r n = 0 := by
  induction r with
  | nil => rfl
  | cons p rest ih =>
      simp only [List.map_cons, List.mem_cons] at h
      push_neg at h
      have hne : ¬(p.1 = n) := fun he => h.1 he.symm
      rw [resourceAt_cons, if_neg hne, ih h.2]
      ring

theorem resourceAt_cases (r : ResourceList) (n : String)
    (h : (r.map Prod.fst).Nodup) :
    resourceAt r n = 0 ∨ (n, resourceAt r n) ∈ r := by
  induction r with
  | nil => exact Or.inl rfl
  | cons p rest ih =>
      simp only [List.map_cons, List.nodup_cons] at h
      by_cases he : p.1 = n
      · have hnot : n ∉ rest.map Prod.fst := he ▸ h.1
        have hz : resourceAt rest n = 0 := resourceAt_of_not_mem_keys rest n hnot
        right
        have hv : resourceAt (p :: rest) n = p.2 := by
          rw [resourceAt_cons, if_pos he, hz]
          ring
        rw [hv, ← he]
        exact List.mem_cons_self _ _
      · have hv : resourceAt (p :: rest) n = resourceAt rest n := by
          rw [resourceAt_cons, if_neg he]
          ring
        rw [hv]
        rcases ih h.2 with h0 | hm
        · exact Or.inl h0
        · exact Or.inr (List.mem_cons_of_mem _ hm)

theorem activeSum_nil (n : String) : activeSum [] n = 0 := rfl

theorem activeSum_cons (r : ResourceList) (rs : List ResourceList) (n : String) :
    activeSum (r :: rs) n = resourceAt r n + activeSum rs n := by
  simp [activeSum]

theorem activeSum_nonneg (rs : List ResourceList) (n : String)
    (h : ∀ r ∈ rs, ∀ p ∈ r, 0 ≤ p.2) : 0 ≤ activeSum rs n := by
  apply List.sum_nonneg
  intro x hx
  simp only [List.mem_map] at hx
  obtain ⟨r, hr, rfl⟩ := hx
  exact resourceAt_nonneg r n (h r hr)

theorem mem_removeFirst (r x : ResourceList) (rs : List ResourceList)
    (h : x ∈ removeFirst r rs) : x ∈ rs := by
  induction rs with
  | nil => simp [removeFirst] at h
  | cons q rest ih =>
      by_cases hq : q = r
      · simp only [removeFirst, if_pos hq] at h
        exact List.mem_cons_of_mem _ h
      · simp only [removeFirst, if_neg hq, List.mem_cons] at h
        rcases h with h | h
        · exact h ▸ List.mem_cons_self _ _
        · exact List.mem_cons_of_mem _ (ih h)

theorem activeSum_removeFirst (r : ResourceList) (rs : List ResourceList)
    (n : String) (h : r ∈ rs) :
    activeSum (removeFirst r rs) n = activeSum rs n - resourceAt r n := by
  induction rs with
  | nil => cases h
  | cons q rest ih =>
      by_cases hq : q = r
      · subst hq
        simp [removeFirst, activeSum_cons]
      · have hr : r ∈ rest := by
          rcases List.mem_cons.mp h with h1 | h1
          · exact absurd h1.symm hq
          · exact h1
        simp only [removeFirst, if_neg hq, activeSum_cons, ih hr]
        ring

theorem lookupAgent_mem (st : Ledger) (i : String) (a : AgentRec)
    (h : lookupAgent st i = some a) : (i, a) ∈ st := by
  induction st with
  | nil => cases h
  | cons p rest ih =>
      obtain ⟨k, b⟩ := p
      by_cases hk : k = i
      · simp only [lookupAgent, if_pos hk, Option.some.injEq] at h
        subst hk; subst h
        exact List.mem_cons_self _ _
      · simp only [lookupAgent, if_neg hk] at h
        exact List.mem_cons_of_mem _ (ih h)

theorem mem_updateAgent (f : AgentRec → AgentRec) (st : Ledger) (i : String)
    (p : String × AgentRec) (h : p ∈ updateAgent f st i) :
    p ∈ st ∨ ∃ a, lookupAgent st i = some a ∧ p = (i, f a) := by
  induction st with
  | nil => simp [updateAgent] at h
  | cons q rest ih =>
      obtain ⟨k, b⟩ := q
      by_cases hk : k = i
      · simp only [updateAgent, if_pos hk, List.mem_cons] at h
        rcases h with h | h
        · right
          exact ⟨b, by simp [lookupAgent, hk], by rw [h, hk]⟩
        · exact Or.inl (List.mem_cons_of_mem _ h)
      · simp only [updateAgent, if_neg hk, List.mem_cons] at h
        rcases h with h | h
        · exact Or.inl (h ▸ List.mem_cons_self _ _)
        · rcases ih h with h1 | ⟨a, ha, hp⟩
          · exact Or.inl (List.mem_cons_of_mem _ h1)
          · exact Or.inr ⟨a, by simpa [lookupAgent, hk] using ha, hp⟩

theorem freshAgent_inv (resources : ResourceList) (jobId : String)
    (h : wfResourceList resources = true) :
    AgentInv (freshAgent resources jobId) := by
  simp only [wfResourceList, Bool.and_eq_true, decide_eq_true_eq, List.all_eq_true] at h
  refine ⟨fun n => by simp [freshAgent, activeSum_nil], fun p hp => ?_, fun n => ?_, ?_⟩
  · exact h.2 p hp
  · exact resourceAt_nonneg _ _ h.2
  · intro r hr
    cases hr

theorem reserveResources_inv (a : AgentRec) (r : ResourceList)
    (ha : AgentInv a) (hr : wfResourceList r = true) :
    AgentInv (reserveResources a r).1 := by
  obtain ⟨h1, h2, h3, h4⟩ := ha
  simp only [wfResourceList, Bool.and_eq_true, decide_eq_true_eq, List.all_eq_true] at hr
  by_cases hfit : fitsAvail r a.avail = true
  · have hfit' : ∀ p ∈ r, p.2 ≤ a.avail p.1 := by
      intro p hp
      have := (List.all_eq_true.mp hfit) p hp
      simpa using this
    simp only [reserveResources, if_pos hfit]
    refine ⟨fun n => ?_, h2, fun n => ?_, ?_⟩
    · simp only [h1 n, activeSum_cons]
      ring
    · simp only
      rcases resourceAt_cases r n hr.1 with h0 | hm
      · rw [h0]
        simpa using h3 n
      · have := hfit' _ hm
        simpa using this
    · intro q hq
      rcases List.mem_cons.mp hq with h | h
      · exact h ▸ hr.2
      · exact h4 q h
  · simp only [reserveResources, if_neg hfit]
    exact ⟨h1, h2, h3, h4⟩

theorem releaseResources_inv (a : AgentRec) (r : ResourceList)
    (ha : AgentInv a) (hr : r ∈ a.active) :
    AgentInv (releaseResources a r) := by
  obtain ⟨h1, h2, h3, h4⟩ := ha
  refine ⟨fun n => ?_, h2, fun n => ?_, ?_⟩
  · simp only [releaseResources, h1 n, activeSum_removeFirst r a.active n hr]
    ring
  · simp only [releaseResources]
    have hnn : 0 ≤ resourceAt r n := resourceAt_nonneg r n (h4 r hr)
    have := h3 n
    linarith
  · intro q hq
    exact h4 q (mem_removeFirst r q a.active hq)

theorem ledgerStep_inv (st : Ledger) (op : LedgerOp)
    (hst : LedgerInv st) (hop : wfLedgerOp st op = true) :
    LedgerInv (ledgerStep st op) := by
  cases op with
  | register aid res jid =>
      simp only [wfLedgerOp] at hop
      simp only [ledgerStep, register_agent]
      cases hl : lookupAgent st aid with
      | none =>
          intro p hp
          rcases List.mem_append.mp hp with h | h
          · exact hst p h
          · simp only [List.mem_singleton] at h
            subst h
            exact freshAgent_inv res jid hop
      | some a =>
          by_cases ht : a.totals = res
          · simpa [ht] using hst
          · simp only [if_neg ht]
            intro p hp
            rcases mem_updateAgent _ st aid p hp with h | ⟨b, _, hpb⟩
            · exact hst p h
            · subst hpb
              exact freshAgent_inv res jid hop
  | reserve aid r =>
      simp only [wfLedgerOp] at hop
      intro p hp
      rcases mem_updateAgent _ st aid p hp with h | ⟨b, hb, hpb⟩
      · exact hst p h
      · subst hpb
        exact reserveResources_inv b r (hst _ (lookupAgent_mem st aid b hb)) hop
  | release aid r =>
      simp only [wfLedgerOp] at hop
      intro p hp
      rcases mem_updateAgent _ st aid p hp with h | ⟨b, hb, hpb⟩
      · exact hst p h
      · subst hpb
        rw [hb] at hop
        simp only [decide_eq_true_eq] at hop
        exact releaseResources_inv b r (hst _ (lookupAgent_mem st aid b hb)) hop

theorem runLedger_inv (ops : List LedgerOp) (st : Ledger)
    (hst : LedgerInv st) (h : wfLedgerOps st ops = true) :
    LedgerInv (runLedger st ops) := by
  induction ops generalizing st with
  | nil => exact hst
  | cons op rest ih =>
      simp only [wfLedgerOps, Bool.and_eq_true] at h
      exact ih _ (ledgerStep_inv st op hst h.1) h.2

/-- C1: Resource-accounting invariant.  For every agent of the ledger reached
by any well-formed interleaving of register / reserve / release operations
(well-formed: vectors have distinct names and non-negative values, and every
release matches an active reservation of its agent, the usage the spec
assumes - "release ... never exceeds totals (bug if it would)"): available
equals total minus the component-wise sum of the active reservations, no
component of available is negative, and no component of available ever exceeds
total (in particular release never raises it above total). -/
theorem resource_accounting_invariant (ops : List LedgerOp)
    (h : wfLedgerOps [] ops = true) :
    ∀ p ∈ runLedger [] ops,
      (∀ n, p.2.avail n = resourceAt p.2.totals n - activeSum p.2.active n) ∧
      (∀ n, 0 ≤ p.2.avail n) ∧
      (∀ n, p.2.avail n ≤ resourceAt p.2.totals n) := by
  have hinv := runLedger_inv ops []
    (fun p hp => absurd hp (List.not_mem_nil p)) h
  intro p hp
  obtain ⟨h1, _, h3, h4⟩ := hinv p hp
  refine ⟨h1, h3, fun n => ?_⟩
  have hs := activeSum_nonneg p.2.active n h4
  have he := h1 n
  linarith

/-- Witness for C1: a concrete register / reserve / release interleaving is
well-formed and the invariant holds in its final ledger. -/
theorem resource_accounting_invariant_witness :
    wfLedgerOps []
      [LedgerOp.register "a" [("cpu", 4)] "", LedgerOp.reserve "a" [("cpu", 2)],
       LedgerOp.release "a" [("cpu", 2)]] = true ∧
    ∀ p ∈ runLedger []
      [LedgerOp.register "a" [("cpu", 4)] "", LedgerOp.reserve "a" [("cpu", 2)],
       LedgerOp.release "a" [("cpu", 2)]],
      (∀ n, p.2.avail n = resourceAt p.2.totals n - activeSum p.2.active n) ∧
      (∀ n, 0 ≤ p.2.avail n) ∧
      (∀ n, p.2.avail n ≤ resourceAt p.2.totals n) :=
  ⟨by simp [wfLedgerOps, wfLedgerOp, ledgerStep, register_agent, lookupAgent, freshAgent,
      reserveResources, fitsAvail, resourceAt, wfResourceList, updateAgent, releaseResources,
      (show (2:ℚ) ≤ 4 by decide)],
   resource_accounting_invariant _
    (by simp [wfLedgerOps, wfLedgerOp, ledgerStep, register_agent, lookupAgent, freshAgent,
      reserveResources, fitsAvail, resourceAt, wfResourceList, updateAgent, releaseResources,
      (show (2:ℚ) ≤ 4 by decide)])⟩

/-- C4 counterexample: the claim asserts that a reserved `CANCELLED` state
exists in `ProcessState.ProcessStateEnum`; the enumeration declared in
`meadowgrid.proto` has no such value (its ten values are `DEFAULT`,
`RUN_REQUESTED`, `RUNNING`, `SUCCEEDED`, `RUN_REQUEST_FAILED`,
`PYTHON_EXCEPTION`, `NON_ZERO_RETURN_CODE`, `RESOURCES_NOT_AVAILABLE`,
`ERROR_GETTING_STATE`, `UNKNOWN`). -/
theorem no_cancelled_state : "CANCELLED" ∉ processStateEnumDecl.map Prod.fst := by
  decide

/-- C4 (amended): the enumeration consists exactly of the ten declared values;
`RUN_REQUESTED` and `RUNNING` are the only "in progress" (non-terminal) states;
the terminal ("done") states are exactly `SUCCEEDED`, `RUN_REQUEST_FAILED`,
`PYTHON_EXCEPTION`, `NON_ZERO_RETURN_CODE`, `RESOURCES_NOT_AVAILABLE` and
`ERROR_GETTING_STATE`; `UNKNOWN` is neither terminal nor in progress, `DEFAULT`
is reserved and likewise neither; and no `CANCELLED` value exists. -/
theorem process_state_partition :
    (∀ s : ProcessStateEnum, s ∈ ProcessStateEnum.all) ∧
    ProcessStateEnum.all.map (fun s => (s.protoName, s.protoTag)) = processStateEnumDecl ∧
    "CANCELLED" ∉ processStateEnumDecl.map Prod.fst ∧
    (∀ s, isInProgress s = true ↔ s = RUN_REQUESTED ∨ s = RUNNING) ∧
    (∀ s, isTerminal s = true ↔
      s = SUCCEEDED ∨ s = RUN_REQUEST_FAILED ∨ s = PYTHON_EXCEPTION ∨
      s = NON_ZERO_RETURN_CODE ∨ s = RESOURCES_NOT_AVAILABLE ∨ s = ERROR_GETTING_STATE) ∧
    isTerminal UNKNOWN = false ∧ isInProgress UNKNOWN = false ∧
    isTerminal DEFAULT = false ∧ isInProgress DEFAULT = false := by
  refine ⟨fun s => ?_, by decide, by decide, fun s => ?_, fun s => ?_, rfl, rfl, rfl, rfl⟩
  · cases s <;> simp [ProcessStateEnum.all]
  · cases s <;> simp [isInProgress]
  · cases s <;> simp [isTerminal]

/-! ## Grid-task registry -/

/-- `GridTask` from `meadowgrid.proto`: `int32 task_id; bytes
pickled_function_arguments;` (bytes are opaque). -/
structure GridTask where
  taskId : Int
  pickledFunctionArguments : List Nat
  deriving DecidableEq, Repr

/-- Modelled from the spec: the per-task state record of the grid-task
registry (the registry implementation is not in the source tree): task id,
argument blob, process state, and the worker the task was dispatched to
(`worker_id` recorded on dequeue, spec 4.3). -/
structure TaskRec where
  taskId : Int
  args : List Nat
  state : ProcessStateEnum
  workerId : Option String
  deriving DecidableEq, Repr

/-- Modelled from the spec: one grid job's entry in the grid-task registry
(spec 4.3): the ordered queue of not-yet-dispatched tasks (`pending`), the
per-task state records in arrival order (`taskRecs`), and the
`all_tasks_added` latch.  `delivered` is the chronological log of (worker,
task) dequeues, kept in the model to state ordering properties. -/
structure GridJobRec where
  pending : List GridTask
  taskRecs : List TaskRec
  allTasksAdded : Bool
  delivered : List (String × GridTask)
  deriving DecidableEq, Repr

/-- A grid job with no tasks and the queue still open. -/
def emptyGridJob : GridJobRec :=
  { pending := [], taskRecs := [], allTasksAdded := false, delivered := [] }

/-- The record a newly-appended task starts with: state `RUN_REQUESTED` (the
coordinator has received it), no worker yet. -/
def initialTaskRec (t : GridTask) : TaskRec :=
  { taskId := t.taskId, args := t.pickledFunctionArguments,
    state := ProcessStateEnum.RUN_REQUESTED, workerId := none }

/-- Modelled from the spec: `append_tasks(job_id, [GridTask], all_added)`
(`add_tasks_to_grid_job`).  "Tasks are enqueued in arrival order. Rejects if
`all_added` was previously true. After the call, if `all_added` is true, the
queue is closed."  The returned flag is `true` iff the call was accepted. -/
def add_tasks_to_grid_job (g : GridJobRec) (ts : List GridTask)
    (allAdded : Bool) : GridJobRec × Bool :=
  if g.allTasksAdded then (g, false)
  else ({ g with pending := g.pending ++ ts,
                 taskRecs := g.taskRecs ++ ts.map initialTaskRec,
                 allTasksAdded := allAdded }, true)

/-- Apply `f` to the first record whose task id is `tid`. -/
def modifyTaskRec (tid : Int) (f : TaskRec → TaskRec) : List TaskRec → List TaskRec
  | [] => []
  | t :: rest => if t.taskId = tid then f t :: rest else t :: modifyTaskRec tid f rest

/-- The record of task `tid` (first match). -/
def findTaskRec (g : GridJobRec) (tid : Int) : Option TaskRec :=
  g.taskRecs.find? (fun t => t.taskId == tid)

/-- Modelled from the spec: `update_task(job_id, task_id, ProcessState)`:
"Write-once for terminal states; otherwise overwrites" (the write-once rule is
`applyStateUpdate`). -/
def update_task (g : GridJobRec) (tid : Int) (new : ProcessStateEnum) : GridJobRec :=
  { g with taskRecs :=
      modifyTaskRec tid (fun t => { t with state := applyStateUpdate t.state new }) g.taskRecs }

/-- The three possible outcomes of a dequeue: the next task, or the
empty answer, open (worker should poll again) or closed (terminal marker, the
wire encoding being a `GridTask` with `task_id = -1`, so the worker exits). -/
inductive DequeueResult where
  | task (t : GridTask)
  | noneOpen
  | noneClosed
  deriving DecidableEq, Repr

/-- The per-record effect of a dequeue: mark `RUN_REQUESTED` (through the
write-once rule, spec invariant 3) and record the worker. -/
def markDispatched (w : String) (r : TaskRec) : TaskRec :=
  { r with state := applyStateUpdate r.state ProcessStateEnum.RUN_REQUESTED,
           workerId := some w }

/-- Modelled from the spec: `dequeue(job_id, worker_id)` (spec 4.3): "Pops the
next task in arrival order, marks its state RUN_REQUESTED, and records
`worker_id`. Returns NONE iff queue empty; if empty and closed, returns NONE
with a terminal marker so the worker exits."  The mark goes through the
write-once rule (spec invariant 3: a task in a terminal state never
transitions). -/
def dequeueTask (g : GridJobRec) (w : String) : GridJobRec × DequeueResult :=
  match g.pending with
  | [] => (g, if g.allTasksAdded then .noneClosed else .noneOpen)
  | t :: rest =>
      ({ g with
          pending := rest,
          taskRecs := modifyTaskRec t.taskId (markDispatched w) g.taskRecs,
          delivered := g.delivered ++ [(w, t)] }, .task t)

/-- Modelled from the spec: `update_grid_task_state_and_get_next`
(`GridTaskUpdateAndGetNextRequest`): "-1 means we don't have a completed task
to update. >= 0 means we are updating the state on the specified task"; then
the next task is dequeued for this worker. -/
def update_grid_task_state_and_get_next (g : GridJobRec) (w : String)
    (tid : Int) (ps : ProcessStateEnum) : GridJobRec × DequeueResult :=
  dequeueTask (if 0 ≤ tid then update_task g tid ps else g) w

/-- One grid-task-registry operation on a grid job. -/
inductive GridOp where
  | addTasks (ts : List GridTask) (allAdded : Bool)
  | updateAndNext (worker : String) (tid : Int) (ps : ProcessStateEnum)

def gridStep (g : GridJobRec) : GridOp → GridJobRec
  | .addTasks ts f => (add_tasks_to_grid_job g ts f).1
  | .updateAndNext w tid ps => (update_grid_task_state_and_get_next g w tid ps).1

def runGrid (g : GridJobRec) : List GridOp → GridJobRec
  | [] => g
  | op :: rest => runGrid (gridStep g op) rest

theorem modifyTaskRec_map_taskId (tid : Int) (f : TaskRec → TaskRec)
    (hf : ∀ t, (f t).taskId = t.taskId) (recs : List TaskRec) :
    (modifyTaskRec tid f recs).map TaskRec.taskId = recs.map TaskRec.taskId := by
  induction recs with
  | nil => rfl
  | cons t rest ih =>
      by_cases ht : t.taskId = tid
      · simp [modifyTaskRec, ht, hf]
      · simp [modifyTaskRec, ht, ih]

theorem find?_modifyTaskRec_self (tid : Int) (f : TaskRec → TaskRec)
    (hf : ∀ t, (f t).taskId = t.taskId) (recs : List TaskRec) :
    (modifyTaskRec tid f recs).find? (fun t => t.taskId == tid) =
      (recs.find? (fun t => t.taskId == tid)).map f := by
  induction recs with
  | nil => rfl
  | cons t rest ih =>
      by_cases ht : t.taskId = tid
      · rw [modifyTaskRec, if_pos ht]
        rw [List.find?_cons_of_pos _ (by simp [hf, ht]),
            List.find?_cons_of_pos _ (by simp [ht])]
        rfl
      · rw [modifyTaskRec, if_neg ht]
        rw [List.find?_cons_of_neg _ (by simp [ht]),
            List.find?_cons_of_neg _ (by simp [ht])]
        exact ih

theorem find?_modifyTaskRec_other (tid tid' : Int) (f : TaskRec → TaskRec)
    (hf : ∀ t, (f t).taskId = t.taskId) (recs : List TaskRec) (hne : tid' ≠ tid) :
    (modifyTaskRec tid f recs).find? (fun t => t.taskId == tid') =
      recs.find? (fun t => t.taskId == tid') := by
  induction recs with
  | nil => rfl
  | cons t rest ih =>
      by_cases ht : t.taskId = tid
      · have ht' : ¬ t.taskId = tid' := fun h => hne (h.symm.trans ht)
        rw [modifyTaskRec, if_pos ht]
        rw [List.find?_cons_of_neg _ (by simp [hf, ht']),
            List.find?_cons_of_neg _ (by simp [ht'])]
      · rw [modifyTaskRec, if_neg ht]
        by_cases ht' : t.taskId = tid'
        · rw [List.find?_cons_of_pos _ (by simp [ht']),
              List.find?_cons_of_pos _ (by simp [ht'])]
        · rw [List.find?_cons_of_neg _ (by simp [ht']),
              List.find?_cons_of_neg _ (by simp [ht'])]
          exact ih

/-- The FIFO bookkeeping invariant of a grid job: the arrival-ordered task
list is the chronological dequeue log followed by the still-pending queue. -/
def GridFifoInv (g : GridJobRec) : Prop :=
  g.taskRecs.map TaskRec.taskId =
    g.delivered.map (fun p => p.2.taskId) ++ g.pending.map GridTask.taskId

theorem update_task_fields (g : GridJobRec) (tid : Int) (ps : ProcessStateEnum) :
    (update_task g tid ps).taskRecs.map TaskRec.taskId = g.taskRecs.map TaskRec.taskId ∧
    (update_task g tid ps).pending = g.pending ∧
    (update_task g tid ps).delivered = g.delivered ∧
    (update_task g tid ps).allTasksAdded = g.allTasksAdded :=
  ⟨modifyTaskRec_map_taskId tid
    (fun t => { t with state := applyStateUpdate t.state ps }) (fun _ => rfl) g.taskRecs,
   rfl, rfl, rfl⟩

theorem gridStep_fifo (g : GridJobRec) (op : GridOp) (h : GridFifoInv g) :
    GridFifoInv (gridStep g op) := by
  cases op with
  | addTasks ts f =>
      simp only [gridStep, add_tasks_to_grid_job]
      by_cases ha : g.allTasksAdded
      · simpa [ha] using h
      · simp only [ha, Bool.false_eq_true, if_false]
        unfold GridFifoInv at h ⊢
        simp only [List.map_append, h, List.map_map, List.append_assoc]
        rfl
  | updateAndNext w tid ps =>
      simp only [gridStep, update_grid_task_state_and_get_next]
      set g1 := if 0 ≤ tid then update_task g tid ps else g with hg1
      have h1 : GridFifoInv g1 := by
        unfold GridFifoInv at h ⊢
        by_cases h0 : 0 ≤ tid
        · obtain ⟨hm, hp, hd, _⟩ := update_task_fields g tid ps
          rw [hg1, if_pos h0, hm, hp, hd]
          exact h
        · rw [hg1, if_neg h0]
          exact h
      unfold GridFifoInv at h1 ⊢
      cases hp : g1.pending with
      | nil => simp [dequeueTask, hp, hp ▸ h1]
      | cons t rest =>
          simp only [dequeueTask, hp]
          rw [modifyTaskRec_map_taskId t.taskId (markDispatched w) (fun _ => rfl) g1.taskRecs]
          rw [h1, hp]
          simp

theorem runGrid_fifo (ops : List GridOp) (g : GridJobRec) (h : GridFifoInv g) :
    GridFifoInv (runGrid g ops) := by
  induction ops generalizing g with
  | nil => exact h
  | cons op rest ih => exact ih _ (gridStep_fifo g op h)

theorem find?_append_left {α : Type} (l l2 : List α) (p : α → Bool) (a : α)
    (h : l.find? p = some a) : (l ++ l2).find? p = some a := by
  induction l with
  | nil => cases h
  | cons x rest ih =>
      by_cases hx : p x = true
      · rw [List.find?_cons_of_pos _ hx] at h
        rw [List.cons_append, List.find?_cons_of_pos _ hx]
        exact h
      · rw [List.find?_cons_of_neg _ (by simpa using hx)] at h
        rw [List.cons_append, List.find?_cons_of_neg _ (by simpa using hx)]
        exact ih h

theorem findTaskRec_gridStep_of_terminal (g : GridJobRec) (op : GridOp)
    (tid : Int) (tr : TaskRec) (hf : findTaskRec g tid = some tr)
    (ht : isTerminal tr.state = true) :
    ∃ tr2, findTaskRec (gridStep g op) tid = some tr2 ∧ tr2.state = tr.state := by
  cases op with
  | addTasks ts f =>
      simp only [gridStep, add_tasks_to_grid_job]
      by_cases ha : g.allTasksAdded
      · exact ⟨tr, by simpa [ha] using hf, rfl⟩
      · refine ⟨tr, ?_, rfl⟩
        simp only [ha, Bool.false_eq_true, if_false, findTaskRec]
        exact find?_append_left _ _ _ _ hf
  | updateAndNext w tid0 ps =>
      simp only [gridStep, update_grid_task_state_and_get_next]
      set g1 := if 0 ≤ tid0 then update_task g tid0 ps else g with hg1
      have step1 : ∃ tr1, findTaskRec g1 tid = some tr1 ∧ tr1.state = tr.state := by
        by_cases h0 : 0 ≤ tid0
        · rw [hg1, if_pos h0]
          by_cases he : tid = tid0
          · subst he
            refine ⟨{ tr with state := applyStateUpdate tr.state ps }, ?_, ?_⟩
            · simp only [findTaskRec] at hf
              simp only [findTaskRec, update_task]
              rw [find?_modifyTaskRec_self tid
                    (fun t => { t with state := applyStateUpdate t.state ps })
                    (fun _ => rfl) g.taskRecs, hf]
              rfl
            · exact applyStateUpdate_of_terminal _ _ ht
          · refine ⟨tr, ?_, rfl⟩
            simp only [findTaskRec] at hf
            simp only [findTaskRec, update_task]
            rw [find?_modifyTaskRec_other tid0 tid
                  (fun t => { t with state := applyStateUpdate t.state ps })
                  (fun _ => rfl) g.taskRecs he]
            exact hf
        · exact ⟨tr, by rw [hg1, if_neg h0]; exact hf, rfl⟩
      obtain ⟨tr1, hf1, hs1⟩ := step1
      have ht1 : isTerminal tr1.state = true := by rw [hs1]; exact ht
      cases hp : g1.pending with
      | nil => exact ⟨tr1, by simp [dequeueTask, hp, hf1], hs1⟩
      | cons t rest =>
          by_cases he : tid = t.taskId
          · refine ⟨markDispatched w tr1, ?_, ?_⟩
            · simp only [findTaskRec] at hf1
              simp only [findTaskRec, dequeueTask, hp]
              rw [he] at hf1 ⊢
              rw [find?_modifyTaskRec_self t.taskId (markDispatched w) (fun _ => rfl)
                    g1.taskRecs, hf1]
              rfl
            · simp only [markDispatched]
              rw [applyStateUpdate_of_terminal _ _ ht1]
              exact hs1
          · refine ⟨tr1, ?_, hs1⟩
            simp only [findTaskRec] at hf1
            simp only [findTaskRec, dequeueTask, hp]
            rw [find?_modifyTaskRec_other t.taskId tid (markDispatched w)
                  (fun _ => rfl) g1.taskRecs he]
            exact hf1

theorem findTaskRec_runGrid_of_terminal (ops : List GridOp) (g : GridJobRec)
    (tid : Int) (tr : TaskRec) (hf : findTaskRec g tid = some tr)
    (ht : isTerminal tr.state = true) :
    ∃ tr2, findTaskRec (runGrid g ops) tid = some tr2 ∧ tr2.state = tr.state := by
  induction ops generalizing g tr with
  | nil => exact ⟨tr, hf, rfl⟩
  | cons op rest ih =>
      obtain ⟨tr1, hf1, hs1⟩ := findTaskRec_gridStep_of_terminal g op tid tr hf ht
      obtain ⟨tr2, hf2, hs2⟩ := ih (gridStep g op) tr1 hf1 (by rw [hs1]; exact ht)
      exact ⟨tr2, hf2, hs2.trans hs1⟩

theorem gridStep_allAdded (g : GridJobRec) (op : GridOp)
    (h : g.allTasksAdded = true) :
    (gridStep g op).allTasksAdded = true ∧
    (gridStep g op).taskRecs.map TaskRec.taskId = g.taskRecs.map TaskRec.taskId := by
  cases op with
  | addTasks ts f => simp [gridStep, add_tasks_to_grid_job, h]
  | updateAndNext w tid ps =>
      simp only [gridStep, update_grid_task_state_and_get_next]
      set g1 := if 0 ≤ tid then update_task g tid ps else g with hg1
      have h1 : g1.allTasksAdded = true ∧
          g1.taskRecs.map TaskRec.taskId = g.taskRecs.map TaskRec.taskId := by
        by_cases h0 : 0 ≤ tid
        · obtain ⟨hm, _, _, hb⟩ := update_task_fields g tid ps
          rw [hg1, if_pos h0]
          exact ⟨by rw [(update_task_fields g tid ps).2.2.2]; exact h, hm⟩
        · rw [hg1, if_neg h0]
          exact ⟨h, rfl⟩
      cases hp : g1.pending with
      | nil => simpa [dequeueTask, hp] using h1
      | cons t rest =>
          simp only [dequeueTask, hp]
          exact ⟨h1.1, by
            rw [modifyTaskRec_map_taskId t.taskId (markDispatched w) (fun _ => rfl) g1.taskRecs]
            exact h1.2⟩

/-- C7: the `all_tasks_added` latch is monotone: an `add_tasks_to_grid_job`
call on a grid job whose latch is already true is rejected with the state
exactly unchanged (so no task is enqueued), and in every state reachable from
a latched grid job the latch is still true and the task list has not grown. -/
theorem all_tasks_added_latch :
    (∀ (g : GridJobRec) (ts : List GridTask) (f : Bool),
      g.allTasksAdded = true → add_tasks_to_grid_job g ts f = (g, false)) ∧
    (∀ (g : GridJobRec) (ops : List GridOp), g.allTasksAdded = true →
      (runGrid g ops).allTasksAdded = true ∧
      (runGrid g ops).taskRecs.map TaskRec.taskId = g.taskRecs.map TaskRec.taskId) := by
  constructor
  · intro g ts f h
    simp [add_tasks_to_grid_job, h]
  · intro g ops h
    induction ops generalizing g with
    | nil => exact ⟨h, rfl⟩
    | cons op rest ih =>
        obtain ⟨h1, h2⟩ := gridStep_allAdded g op h
        obtain ⟨h3, h4⟩ := ih _ h1
        exact ⟨h3, h4.trans h2⟩

/-- Witness for C7 at a concrete latched grid job and operation list. -/
theorem all_tasks_added_latch_witness :
    add_tasks_to_grid_job ⟨[⟨0, []⟩], [initialTaskRec ⟨0, []⟩], true, []⟩ [⟨1, []⟩] false =
      (⟨[⟨0, []⟩], [initialTaskRec ⟨0, []⟩], true, []⟩, false) ∧
    (runGrid ⟨[⟨0, []⟩], [initialTaskRec ⟨0, []⟩], true, []⟩
       [GridOp.updateAndNext "w" (-1) ProcessStateEnum.DEFAULT]).allTasksAdded = true :=
  ⟨all_tasks_added_latch.1 _ _ _ rfl, (all_tasks_added_latch.2 _ _ rfl).1⟩

/-- C6: grid-task dequeue is FIFO and stateful.  Over every operation
sequence on a grid job: the arrival-ordered task list equals the
chronological dequeue log followed by the still-pending queue (so tasks are
delivered in insertion order across all workers); when the task ids are
distinct, no task id is ever delivered to two different workers; a dequeue on
a non-empty queue pops the head task, returns it, logs (worker, task), and
updates its record to `RUN_REQUESTED` with the worker id recorded (the state
mark goes through the write-once rule, so it is `RUN_REQUESTED` whenever the
record was not already terminal); the empty answer arises exactly when the
queue is empty, and carries the terminal (closed) marker exactly when
`all_tasks_added` is also set. -/
theorem grid_dequeue_fifo :
    (∀ ops : List GridOp,
      (runGrid emptyGridJob ops).taskRecs.map TaskRec.taskId =
        (runGrid emptyGridJob ops).delivered.map (fun p => p.2.taskId) ++
          (runGrid emptyGridJob ops).pending.map GridTask.taskId) ∧
    (∀ ops : List GridOp,
      ((runGrid emptyGridJob ops).taskRecs.map TaskRec.taskId).Nodup →
      ∀ w1 w2 t1 t2, (w1, t1) ∈ (runGrid emptyGridJob ops).delivered →
        (w2, t2) ∈ (runGrid emptyGridJob ops).delivered → t1.taskId = t2.taskId →
        w1 = w2 ∧ t1 = t2) ∧
    (∀ (g : GridJobRec) (w : String) (t : GridTask) (rest : List GridTask),
      g.pending = t :: rest →
      (dequeueTask g w).2 = DequeueResult.task t ∧
      (dequeueTask g w).1.pending = rest ∧
      (dequeueTask g w).1.delivered = g.delivered ++ [(w, t)] ∧
      ∀ tr, findTaskRec g t.taskId = some tr →
        findTaskRec (dequeueTask g w).1 t.taskId = some (markDispatched w tr) ∧
        (isTerminal tr.state = false →
          (markDispatched w tr).state = ProcessStateEnum.RUN_REQUESTED ∧
          (markDispatched w tr).workerId = some w)) ∧
    (∀ (g : GridJobRec) (w : String),
      ((dequeueTask g w).2 = DequeueResult.noneOpen ∨
        (dequeueTask g w).2 = DequeueResult.noneClosed) ↔ g.pending = []) ∧
    (∀ (g : GridJobRec) (w : String), g.pending = [] →
      (dequeueTask g w).1 = g ∧
      ((dequeueTask g w).2 = DequeueResult.noneClosed ↔ g.allTasksAdded = true)) := by
  have fifo : ∀ ops : List GridOp, GridFifoInv (runGrid emptyGridJob ops) :=
    fun ops => runGrid_fifo ops emptyGridJob rfl
  refine ⟨fifo, ?_, ?_, ?_, ?_⟩
  · intro ops hnd w1 w2 t1 t2 h1 h2 hid
    rw [fifo ops] at hnd
    have hd : ((runGrid emptyGridJob ops).delivered.map (fun p => p.2.taskId)).Nodup :=
      hnd.of_append_left
    have := List.inj_on_of_nodup_map hd h1 h2 (by simpa using hid)
    exact ⟨congrArg Prod.fst this, congrArg Prod.snd this⟩
  · intro g w t rest hp
    refine ⟨by simp [dequeueTask, hp], by simp [dequeueTask, hp],
      by simp [dequeueTask, hp], ?_⟩
    intro tr htr
    constructor
    · simp only [findTaskRec] at htr
      simp only [findTaskRec, dequeueTask, hp]
      rw [find?_modifyTaskRec_self t.taskId (markDispatched w) (fun _ => rfl) g.taskRecs,
          htr]
      rfl
    · intro hterm
      exact ⟨by simp [markDispatched, applyStateUpdate_of_nonterminal _ _ hterm], rfl⟩
  · intro g w
    cases hp : g.pending with
    | nil =>
        simp only [dequeueTask, hp]
        by_cases ha : g.allTasksAdded <;> simp [ha]
    | cons t rest => simp [dequeueTask, hp]
  · intro g w hp
    simp only [dequeueTask, hp]
    by_cases ha : g.allTasksAdded <;> simp [ha]

/-- Witness for C6: dequeue on a concrete one-task queue returns that task,
logs the worker, and marks the record. -/
theorem grid_dequeue_fifo_witness :
    (dequeueTask ⟨[⟨5, []⟩], [initialTaskRec ⟨5, []⟩], true, []⟩ "w1").2 =
      DequeueResult.task ⟨5, []⟩ ∧
    (dequeueTask ⟨[⟨5, []⟩], [initialTaskRec ⟨5, []⟩], true, []⟩ "w1").1.delivered =
      [("w1", ⟨5, []⟩)] ∧
    findTaskRec (dequeueTask ⟨[⟨5, []⟩], [initialTaskRec ⟨5, []⟩], true, []⟩ "w1").1 5 =
      some (markDispatched "w1" (initialTaskRec ⟨5, []⟩)) := by
  have h := grid_dequeue_fifo.2.2.1 ⟨[⟨5, []⟩], [initialTaskRec ⟨5, []⟩], true, []⟩
    "w1" ⟨5, []⟩ [] rfl
  exact ⟨h.1, by simpa using h.2.2.1, (h.2.2.2 _ rfl).1⟩

/-! ## Credential store -/

/-- `Credentials.Service` from `meadowgrid.proto`. -/
inductive CredService where
  | defaultService
  | docker
  | git
  deriving DecidableEq, Repr

/-- `Credentials.Type` from `meadowgrid.proto`. -/
inductive CredType where
  | defaultType
  | usernamePassword
  | sshKey
  deriving DecidableEq, Repr

/-- The `source` oneof of `AddCredentialsRequest`. -/
inductive CredSource where
  | awsSecret (credentialsType : CredType) (secretName : String)
  | serverAvailableFile (credentialsType : CredType) (path : String)
  deriving DecidableEq, Repr

/-- A stored credentials source: the (service, service_url) key of an
`AddCredentialsRequest` together with its source. -/
structure CredEntry where
  service : CredService
  serviceUrl : String
  source : CredSource
  deriving DecidableEq, Repr

/-- String prefix test, on the character lists. -/
def strIsPrefixOf (p s : String) : Bool :=
  p.toList.isPrefixOf s.toList

/-- An entry answers a (service, url) query iff the services agree and the
stored URL is a prefix of the queried URL. -/
def credMatches (e : CredEntry) (s : CredService) (url : String) : Bool :=
  e.service == s && strIsPrefixOf e.serviceUrl url

/-- Modelled from the spec: credential lookup over the insertion-ordered
store (spec 2/8: "Keyed by (service, URL-prefix); returns the most-specific
match", "ties broken by insertion order").  The fold keeps the earlier entry
unless a strictly longer prefix appears later. -/
def lookupCredential : List CredEntry → CredService → String → Option CredEntry
  | [], _, _ => none
  | e :: rest, s, url =>
      let r := lookupCredential rest s url
      if credMatches e s url = true then
        match r with
        | none => some e
        | some e2 =>
            if e.serviceUrl.length < e2.serviceUrl.length then some e2 else some e
      else r

/-! ## Jobs and the coordinator state -/

/-- The `code_deployment` oneof of `Job` in `meadowgrid.proto`. -/
inductive CodeDeployment where
  | serverAvailableFolder (codePaths : List String)
  | gitRepoCommit (repoUrl commit pathInRepo : String)
  | gitRepoBranch (repoUrl branch pathInRepo : String)
  deriving DecidableEq, Repr

/-- The `interpreter_deployment` oneof of `Job` in `meadowgrid.proto`. -/
inductive InterpreterDeployment where
  | serverAvailableInterpreter (interpreterPath : String)
  | containerAtDigest (repository digest : String)
  | containerAtTag (repository tag : String)
  | serverAvailableContainer (imageName : String)
  deriving DecidableEq, Repr

/-- `PyCommandJob` from `meadowgrid.proto`. -/
structure PyCommandJob where
  commandLine : List String
  pickledContextVariables : List Nat
  deriving DecidableEq, Repr

/-- The `function_spec` oneof of `PyFunctionJob`. -/
inductive FunctionSpec where
  | qualifiedFunctionName (moduleName functionName : String)
  | pickledFunction (blob : List Nat)
  deriving DecidableEq, Repr

/-- `PyFunctionJob` from `meadowgrid.proto`. -/
structure PyFunctionJob where
  functionSpec : Option FunctionSpec
  pickledFunctionArguments : List Nat
  deriving DecidableEq, Repr

/-- `PyGridJob` from `meadowgrid.proto`. -/
structure PyGridJob where
  function : PyFunctionJob
  tasks : List GridTask
  allTasksAdded : Bool
  deriving DecidableEq, Repr

/-- The `job_spec` oneof of `Job`. -/
inductive JobSpec where
  | pyCommand (c : PyCommandJob)
  | pyFunction (f : PyFunctionJob)
  | pyGrid (g : PyGridJob)
  deriving DecidableEq, Repr

/-- `Job` from `meadowgrid.proto` (oneofs are `Option`s since a request may
leave them unset; floats are modelled as exact rationals). -/
structure Job where
  jobId : String
  jobFriendlyName : String
  priority : ℚ
  interruptionProbabilityThreshold : ℚ
  codeDeployment : Option CodeDeployment
  interpreterDeployment : Option InterpreterDeployment
  environmentVariables : List (String × String)
  resultHighestPickleProtocol : Int
  resourcesRequired : ResourceList
  jobSpec : Option JobSpec
  deriving DecidableEq

/-- The job-id charset from `meadowgrid.proto`: "job_id may only use
string.ascii_letters, numbers, ., -, and _". -/
def jobIdCharOk (c : Char) : Bool :=
  c.isAlpha || c.isDigit || c == '.' || c == '-' || c == '_'

def jobIdValid (s : String) : Bool := s.toList.all jobIdCharOk

/-- Modelled from the spec: `add_job` validation (spec 4.1, 7a): job-id
charset, both deployment oneofs present, resource vector non-negative. -/
def validateJob (j : Job) : Bool :=
  jobIdValid j.jobId && j.codeDeployment.isSome && j.interpreterDeployment.isSome &&
    j.resourcesRequired.all (fun p => decide (0 ≤ p.2))

/-- A stored job: the submitted request plus its current process state. -/
structure JobRec where
  job : Job
  state : ProcessStateEnum
  deriving DecidableEq

/-- Whether a job's spec oneof is the grid variant. -/
def isGridJob (j : Job) : Bool :=
  match j.jobSpec with
  | some (JobSpec.pyGrid _) => true
  | _ => false

/-- Modelled from the spec: the coordinator's in-memory state: the job
registry, the grid-task registry, the resource ledger and the credential
store (spec 2; all state is in memory). -/
structure CoordState where
  jobs : List (String × JobRec)
  gridJobs : List (String × GridJobRec)
  agents : Ledger
  creds : List CredEntry

/-- The coordinator's initial (empty) state. -/
def emptyCoordState : CoordState :=
  { jobs := [], gridJobs := [], agents := [], creds := [] }

def lookupKey {α : Type} : List (String × α) → String → Option α
  | [], _ => none
  | (k, v) :: rest, i => if k = i then some v else lookupKey rest i

def updateKey {α : Type} (f : α → α) : List (String × α) → String → List (String × α)
  | [], _ => []
  | (k, v) :: rest, i =>
      if k = i then (k, f v) :: rest else (k, v) :: updateKey f rest i

/-- The outcome of `add_job`: the proto's `ADDED` / `IS_DUPLICATE`, or the
synchronous RPC failure of validation (spec 7a: "RPC failure before any state
change"). -/
inductive AddJobOutcome where
  | added
  | isDuplicate
  | invalidArgument
  deriving DecidableEq, Repr

/-- The task queue a freshly inserted grid job starts with, built from the
tasks embedded in its `PyGridJob` spec. -/
def initialGridJobRec (pg : PyGridJob) : GridJobRec :=
  { pending := pg.tasks, taskRecs := pg.tasks.map initialTaskRec,
    allTasksAdded := pg.allTasksAdded, delivered := [] }

/-- Modelled from the spec: `add_job(Job)` (spec 4.1): validates (job-id
charset, deployment oneofs, non-negative resources), failing the RPC before
any state change; then "if `job_id` already known, returns IS_DUPLICATE
without comparing contents"; otherwise inserts the job with state
RUN_REQUESTED (for a grid job also creating its task queue from the embedded
tasks). -/
def add_job (st : CoordState) (j : Job) : CoordState × AddJobOutcome :=
  if validateJob j = false then (st, .invalidArgument)
  else if (lookupKey st.jobs j.jobId).isSome then (st, .isDuplicate)
  else
    let st1 := { st with
      jobs := st.jobs ++ [(j.jobId, ⟨j, ProcessStateEnum.RUN_REQUESTED⟩)] }
    match j.jobSpec with
    | some (JobSpec.pyGrid pg) =>
        ({ st1 with gridJobs := st1.gridJobs ++ [(j.jobId, initialGridJobRec pg)] }, .added)
    | _ => (st1, .added)

/-- Modelled from the spec: `update_job_state(id, ProcessState)` (spec 4.1):
the stored state is updated through the write-once rule; unknown ids are
ignored. -/
def update_job_state (st : CoordState) (jobId : String) (ps : ProcessStateEnum) :
    CoordState :=
  { st with jobs :=
      updateKey (fun r => { r with state := applyStateUpdate r.state ps }) st.jobs jobId }

/-- Modelled from the spec: `update_job_states`: a batch of `JobStateUpdate`s
applied in order. -/
def update_job_states (st : CoordState) (ups : List (String × ProcessStateEnum)) :
    CoordState :=
  ups.foldl (fun s u => update_job_state s u.1 u.2) st

/-- Modelled from the spec (4.3): the synthetic state of a grid job:
"SUCCEEDED iff queue closed and every task terminal with SUCCEEDED; RUNNING
iff any task non-terminal or queue open; terminal failure iff queue closed and
any task ended in a failure state" (then the state of the first failed task is
reported; the final fallback arm is unreachable). -/
def syntheticGridState (g : GridJobRec) : ProcessStateEnum :=
  if g.allTasksAdded && g.taskRecs.all (fun t => t.state == ProcessStateEnum.SUCCEEDED) then
    ProcessStateEnum.SUCCEEDED
  else if !g.allTasksAdded || g.taskRecs.any (fun t => !isTerminal t.state) then
    ProcessStateEnum.RUNNING
  else
    match g.taskRecs.find?
        (fun t => isTerminal t.state && !(t.state == ProcessStateEnum.SUCCEEDED)) with
    | some t => t.state
    | none => ProcessStateEnum.ERROR_GETTING_STATE

/-- Modelled from the spec: the per-id answer of `get_simple_job_states`
(spec 4.1): unknown ids report UNKNOWN; non-grid jobs report their own stored
state; grid jobs report the synthetic state of their task queue. -/
def get_simple_job_state (st : CoordState) (jobId : String) : ProcessStateEnum :=
  match lookupKey st.jobs jobId with
  | none => ProcessStateEnum.UNKNOWN
  | some r =>
      if isGridJob r.job then
        match lookupKey st.gridJobs jobId with
        | some g => syntheticGridState g
        | none => r.state
      else r.state

def get_simple_job_states (st : CoordState) (ids : List String) :
    List ProcessStateEnum :=
  ids.map (get_simple_job_state st)

/-- Modelled from the spec: `add_credentials` appends to the store (reads are
most-specific-match, `lookupCredential`). -/
def add_credentials (st : CoordState) (e : CredEntry) : CoordState :=
  { st with creds := st.creds ++ [e] }

/-- Modelled from the spec: the affinity gate of the matching discipline
(spec 4.2 with the proto's encoding on `RegisterAgentRequest.job_id` /
`NextJobsRequest.job_id`: "Will be empty for generic agents, populated for
job-specific agents"): a job passes iff the agent is generic (empty affinity)
or the affinity equals the job id. -/
def affinityAllows (affinity jobId : String) : Bool :=
  affinity == "" || affinity == jobId

/-- An agent with affinity string `affinity` is job-specific to job `jobId`:
it has a (non-empty) affinity and that affinity is `jobId`. -/
def jobSpecificTo (affinity jobId : String) : Prop :=
  affinity ≠ "" ∧ affinity = jobId

/-- Modelled from the spec (4.2): "a job fits agent A iff A has no
job-affinity or affinity equals the job id, and reserve would succeed." -/
def jobFitsAgent (a : AgentRec) (j : Job) : Bool :=
  affinityAllows a.jobAffinity j.jobId && fitsAvail j.resourcesRequired a.avail

/-! ## Theorems about the job registry -/

theorem lookupKey_updateKey_self {α : Type} (f : α → α) (l : List (String × α))
    (i : String) : lookupKey (updateKey f l i) i = (lookupKey l i).map f := by
  induction l with
  | nil => rfl
  | cons p rest ih =>
      obtain ⟨k, v⟩ := p
      by_cases hk : k = i
      · simp [updateKey, lookupKey, hk]
      · simp [updateKey, lookupKey, hk, ih]

theorem lookupKey_updateKey_other {α : Type} (f : α → α) (l : List (String × α))
    (i j : String) (hne : j ≠ i) :
    lookupKey (updateKey f l j) i = lookupKey l i := by
  induction l with
  | nil => rfl
  | cons p rest ih =>
      obtain ⟨k, v⟩ := p
      by_cases hk : k = j
      · have hki : ¬ k = i := fun h => hne (hk ▸ h ▸ rfl)
        simp [updateKey, lookupKey, hk, hki, hne]
      · by_cases hki : k = i
        · simp [updateKey, lookupKey, hk, hki, Ne.symm hne]
        · simp [updateKey, lookupKey, hk, hki, ih]

theorem lookupKey_append {α : Type} (l l2 : List (String × α)) (i : String) :
    lookupKey (l ++ l2) i =
      match lookupKey l i with
      | some v => some v
      | none => lookupKey l2 i := by
  induction l with
  | nil => rfl
  | cons p rest ih =>
      obtain ⟨k, v⟩ := p
      by_cases hk : k = i
      · simp [lookupKey, hk]
      · simp [lookupKey, hk, ih]

theorem lookupKey_eq_none_iff {α : Type} (l : List (String × α)) (i : String) :
    lookupKey l i = none ↔ i ∉ l.map Prod.fst := by
  induction l with
  | nil => simp [lookupKey]
  | cons p rest ih =>
      obtain ⟨k, v⟩ := p
      by_cases hk : k = i
      · simp [lookupKey, hk]
      · simp only [lookupKey, if_neg hk, List.map_cons, List.mem_cons, ih]
        constructor
        · intro h hc
          rcases hc with hc | hc
          · exact hk hc.symm
          · exact h hc
        · intro h hc
          exact h (Or.inr hc)

theorem update_job_states_terminal (ups : List (String × ProcessStateEnum)) :
    ∀ (st : CoordState) (i : String) (r : JobRec),
      lookupKey st.jobs i = some r → isTerminal r.state = true →
      (lookupKey (update_job_states st ups).jobs i).map JobRec.state = some r.state := by
  induction ups with
  | nil =>
      intro st i r h _
      simp [update_job_states, h]
  | cons u rest ih =>
      intro st i r h ht
      have hstep : update_job_states st (u :: rest) =
          update_job_states (update_job_state st u.1 u.2) rest := rfl
      rw [hstep]
      by_cases hu : u.1 = i
      · have h1 : lookupKey (update_job_state st u.1 u.2).jobs i =
            some { r with state := applyStateUpdate r.state u.2 } := by
          simp only [update_job_state]
          rw [hu, lookupKey_updateKey_self, h]
          rfl
        have hsame : applyStateUpdate r.state u.2 = r.state :=
          applyStateUpdate_of_terminal _ _ ht
        have := ih (update_job_state st u.1 u.2) i _ h1 (by simpa [hsame] using ht)
        simpa [hsame] using this
      · have h1 : lookupKey (update_job_state st u.1 u.2).jobs i = some r := by
          simp only [update_job_state]
          rw [lookupKey_updateKey_other _ _ _ _ hu]
          exact h
        exact ih _ i r h1 ht

/-- C2: terminal states are write-once.  The shared update rule leaves a
terminal current state unchanged (whatever the attempted new state) and
overwrites a non-terminal one; consequently a job stored with a terminal
state keeps that state across any later batch of `update_job_states` calls,
and a grid task whose record is terminal keeps its state across any later
sequence of grid-registry operations (including
`update_grid_task_state_and_get_next`). -/
theorem terminal_write_once :
    (∀ cur new, isTerminal cur = true → applyStateUpdate cur new = cur) ∧
    (∀ cur new, isTerminal cur = false → applyStateUpdate cur new = new) ∧
    (∀ (st : CoordState) (i : String) (r : JobRec)
        (ups : List (String × ProcessStateEnum)),
      lookupKey st.jobs i = some r → isTerminal r.state = true →
      (lookupKey (update_job_states st ups).jobs i).map JobRec.state = some r.state) ∧
    (∀ (g : GridJobRec) (tid : Int) (tr : TaskRec) (ops : List GridOp),
      findTaskRec g tid = some tr → isTerminal tr.state = true →
      ∃ tr2, findTaskRec (runGrid g ops) tid = some tr2 ∧ tr2.state = tr.state) :=
  ⟨applyStateUpdate_of_terminal, applyStateUpdate_of_nonterminal,
   fun st i r ups h ht => update_job_states_terminal ups st i r h ht,
   fun g tid tr ops hf ht => findTaskRec_runGrid_of_terminal ops g tid tr hf ht⟩

/-- Witness for C2: a job stored as SUCCEEDED is still SUCCEEDED after an
attempted update to RUNNING, and a terminal grid-task record survives an
`update_grid_task_state_and_get_next` that targets it. -/
theorem terminal_write_once_witness :
    (lookupKey (update_job_states
        { jobs := [("a", ⟨⟨"a", "", 1, 0, none, none, [], 0, [], none⟩,
            ProcessStateEnum.SUCCEEDED⟩)],
          gridJobs := [], agents := [], creds := [] }
        [("a", ProcessStateEnum.RUNNING)]).jobs "a").map JobRec.state =
      some ProcessStateEnum.SUCCEEDED ∧
    ∃ tr2, findTaskRec (runGrid
        ⟨[], [⟨7, [], ProcessStateEnum.SUCCEEDED, some "w"⟩], true, []⟩
        [GridOp.updateAndNext "w" 7 ProcessStateEnum.RUNNING]) 7 = some tr2 ∧
      tr2.state = ProcessStateEnum.SUCCEEDED :=
  ⟨terminal_write_once.2.2.1
      { jobs := [("a", ⟨⟨"a", "", 1, 0, none, none, [], 0, [], none⟩,
          ProcessStateEnum.SUCCEEDED⟩)], gridJobs := [], agents := [], creds := [] }
      "a"
      ⟨⟨"a", "", 1, 0, none, none, [], 0, [], none⟩, ProcessStateEnum.SUCCEEDED⟩
      [("a", ProcessStateEnum.RUNNING)] (by rfl) (by rfl),
   terminal_write_once.2.2.2
      ⟨[], [⟨7, [], ProcessStateEnum.SUCCEEDED, some "w"⟩], true, []⟩ 7
      ⟨7, [], ProcessStateEnum.SUCCEEDED, some "w"⟩
      [GridOp.updateAndNext "w" 7 ProcessStateEnum.RUNNING] (by rfl) (by rfl)⟩

theorem add_job_fresh (st : CoordState) (j : Job) (hv : validateJob j = true)
    (hlk : lookupKey st.jobs j.jobId = none) :
    (add_job st j).2 = AddJobOutcome.added ∧
    (add_job st j).1.jobs =
      st.jobs ++ [(j.jobId, ⟨j, ProcessStateEnum.RUN_REQUESTED⟩)] := by
  rcases hs : j.jobSpec with _ | s
  · simp [add_job, hv, hlk, hs]
  · cases s <;> simp [add_job, hv, hlk, hs]

/-- A well-formed non-grid job with the given id, for concrete instances. -/
def sampleJob (i : String) : Job :=
  { jobId := i, jobFriendlyName := "sample", priority := 1,
    interruptionProbabilityThreshold := 0,
    codeDeployment := some (CodeDeployment.serverAvailableFolder []),
    interpreterDeployment :=
      some (InterpreterDeployment.serverAvailableInterpreter "python"),
    environmentVariables := [], resultHighestPickleProtocol := 2,
    resourcesRequired := [], jobSpec := some (JobSpec.pyCommand ⟨["run"], []⟩) }

/-- C3 (amended): among requests that pass validation, duplicate detection is
by id alone: a validated `add_job` whose id is already stored returns
IS_DUPLICATE with the state exactly unchanged, whatever its other fields; two
validated `add_job` calls with the same fresh id return ADDED then
IS_DUPLICATE; and the registry never holds two jobs with the same id. -/
theorem duplicate_add_job :
    (∀ (st : CoordState) (j : Job), validateJob j = true →
      (lookupKey st.jobs j.jobId).isSome = true →
      add_job st j = (st, AddJobOutcome.isDuplicate)) ∧
    (∀ (st : CoordState) (j j2 : Job), lookupKey st.jobs j.jobId = none →
      validateJob j = true → validateJob j2 = true → j2.jobId = j.jobId →
      (add_job st j).2 = AddJobOutcome.added ∧
      add_job (add_job st j).1 j2 = ((add_job st j).1, AddJobOutcome.isDuplicate)) ∧
    (∀ (st : CoordState) (j : Job), (st.jobs.map Prod.fst).Nodup →
      (((add_job st j).1).jobs.map Prod.fst).Nodup) := by
  have part1 : ∀ (st : CoordState) (j : Job), validateJob j = true →
      (lookupKey st.jobs j.jobId).isSome = true →
      add_job st j = (st, AddJobOutcome.isDuplicate) := by
    intro st j hv hs
    simp [add_job, hv, hs]
  refine ⟨part1, ?_, ?_⟩
  · intro st j j2 hlk hv hv2 hid
    obtain ⟨ho, hjobs⟩ := add_job_fresh st j hv hlk
    refine ⟨ho, part1 _ _ hv2 ?_⟩
    rw [hjobs, hid, lookupKey_append, hlk]
    simp [lookupKey]
  · intro st j hnd
    by_cases hv : validateJob j = true
    · cases hs : lookupKey st.jobs j.jobId with
      | some r => rw [part1 st j hv (by simp [hs])]; exact hnd
      | none =>
          obtain ⟨_, hjobs⟩ := add_job_fresh st j hv hs
          rw [hjobs, List.map_append, List.nodup_append]
          refine ⟨hnd, by simp, ?_⟩
          intro x hx hx2
          simp only [List.map_cons, List.map_nil, List.mem_singleton] at hx2
          subst hx2
          exact (lookupKey_eq_none_iff st.jobs j.jobId).mp hs hx
    · have : add_job st j = (st, AddJobOutcome.invalidArgument) := by
        simp only [Bool.not_eq_true] at hv
        simp [add_job, hv]
      rw [this]
      exact hnd

/-- The request that makes C3 fail as stated: its id duplicates the stored
job "a" but its interpreter-deployment oneof is unset, so validation fails. -/
def invalidDuplicateRequest : Job :=
  { sampleJob "a" with interpreterDeployment := none }

/-- C3 counterexample: with job "a" stored, a second `add_job` whose id is
also "a" but which is invalid (missing interpreter deployment) fails
validation instead of returning IS_DUPLICATE — the answer is not
IS_DUPLICATE "regardless of any other field of the request", because
validation is checked before the duplicate test (spec 4.1, 7a). -/
theorem duplicate_add_job_counterexample :
    (lookupKey (add_job emptyCoordState (sampleJob "a")).1.jobs
        invalidDuplicateRequest.jobId).isSome = true ∧
    add_job (add_job emptyCoordState (sampleJob "a")).1 invalidDuplicateRequest =
      ((add_job emptyCoordState (sampleJob "a")).1, AddJobOutcome.invalidArgument) := by
  constructor <;> rfl

/-- Witness for C3: two validated `add_job` requests with id "a" (the second
with different contents) return ADDED then IS_DUPLICATE. -/
theorem duplicate_add_job_witness :
    (add_job emptyCoordState (sampleJob "a")).2 = AddJobOutcome.added ∧
    add_job (add_job emptyCoordState (sampleJob "a")).1
        { sampleJob "a" with jobFriendlyName := "other" } =
      ((add_job emptyCoordState (sampleJob "a")).1, AddJobOutcome.isDuplicate) :=
  duplicate_add_job.2.1 emptyCoordState (sampleJob "a")
    { sampleJob "a" with jobFriendlyName := "other" } (by rfl) (by rfl) (by rfl) (by rfl)

/-- C8: validation failures are atomic.  `validateJob` fails exactly on a
malformed job id (some character outside letters, digits, '.', '-', '_'), a
missing code- or interpreter-deployment oneof, or a negative resource
component; and on any request failing validation `add_job` returns the RPC
failure with the coordinator state (job registry, grid-task registry,
resource ledger, credential store) exactly unchanged. -/
theorem add_job_validation_atomic :
    (∀ s : String, jobIdValid s = false ↔ ∃ c ∈ s.toList, jobIdCharOk c = false) ∧
    (∀ j : Job, validateJob j = false ↔
      (jobIdValid j.jobId = false ∨ j.codeDeployment = none ∨
       j.interpreterDeployment = none ∨ ∃ p ∈ j.resourcesRequired, p.2 < 0)) ∧
    (∀ (st : CoordState) (j : Job), validateJob j = false →
      add_job st j = (st, AddJobOutcome.invalidArgument)) := by
  refine ⟨?_, ?_, ?_⟩
  · intro s
    simp [jobIdValid, List.all_eq_true]
  · intro j
    have hopt : ∀ {α : Type} (o : Option α), o.isSome = false ↔ o = none := by
      intro α o
      cases o <;> simp
    simp only [validateJob, Bool.and_eq_false_iff, hopt, List.all_eq_false,
      decide_eq_false_iff_not, decide_eq_true_eq, not_le]
    tauto
  · intro st j h
    simp [add_job, h]

/-- Witness for C8: a request with a negative cpu requirement fails
validation and `add_job` leaves the empty coordinator state unchanged. -/
theorem add_job_validation_atomic_witness :
    validateJob { sampleJob "b" with resourcesRequired := [("cpu", -1)] } = false ∧
    add_job emptyCoordState { sampleJob "b" with resourcesRequired := [("cpu", -1)] } =
      (emptyCoordState, AddJobOutcome.invalidArgument) :=
  ⟨by rfl, add_job_validation_atomic.2.2 emptyCoordState _ (by rfl)⟩

theorem isTerminal_ne_running (s : ProcessStateEnum) (h : isTerminal s = true) :
    s ≠ ProcessStateEnum.RUNNING := by
  cases s <;> simp_all [isTerminal]

theorem syntheticGridState_succeeded_iff (g : GridJobRec) :
    syntheticGridState g = ProcessStateEnum.SUCCEEDED ↔
      (g.allTasksAdded = true ∧
        ∀ t ∈ g.taskRecs, t.state = ProcessStateEnum.SUCCEEDED) := by
  have hb1 : (g.allTasksAdded &&
      g.taskRecs.all (fun t => t.state == ProcessStateEnum.SUCCEEDED)) = true ↔
      (g.allTasksAdded = true ∧
        ∀ t ∈ g.taskRecs, t.state = ProcessStateEnum.SUCCEEDED) := by
    simp [List.all_eq_true]
  unfold syntheticGridState
  cases h1 : (g.allTasksAdded &&
      g.taskRecs.all (fun t => t.state == ProcessStateEnum.SUCCEEDED)) with
  | true =>
      simp only [h1]
      exact iff_of_true (by simp) (hb1.mp h1)
  | false =>
      have hno : ¬ (g.allTasksAdded = true ∧
          ∀ t ∈ g.taskRecs, t.state = ProcessStateEnum.SUCCEEDED) := by
        intro hc
        rw [hb1.mpr hc] at h1
        cases h1
      simp only [h1, Bool.false_eq_true, if_false]
      cases h2 : (!g.allTasksAdded || g.taskRecs.any (fun t => !isTerminal t.state)) with
      | true =>
          simp only [h2, if_true]
          simp [hno]
      | false =>
          simp only [h2, Bool.false_eq_true, if_false]
          cases h3 : g.taskRecs.find?
              (fun t => isTerminal t.state && !(t.state == ProcessStateEnum.SUCCEEDED)) with
          | some t =>
              have hpred := List.find?_some h3
              simp only [Bool.and_eq_true, Bool.not_eq_true', beq_eq_false_iff_ne,
                ne_eq] at hpred
              simp only [h3]
              constructor
              · intro he
                exact absurd he hpred.2
              · intro hc
                exact absurd hc hno
          | none =>
              simp only [h3]
              simp [hno]

theorem syntheticGridState_running_iff (g : GridJobRec) :
    syntheticGridState g = ProcessStateEnum.RUNNING ↔
      (g.allTasksAdded = false ∨ ∃ t ∈ g.taskRecs, isTerminal t.state = false) := by
  have hb2 : (!g.allTasksAdded || g.taskRecs.any (fun t => !isTerminal t.state)) = true ↔
      (g.allTasksAdded = false ∨ ∃ t ∈ g.taskRecs, isTerminal t.state = false) := by
    simp [List.any_eq_true, Bool.not_eq_true']
  unfold syntheticGridState
  cases h1 : (g.allTasksAdded &&
      g.taskRecs.all (fun t => t.state == ProcessStateEnum.SUCCEEDED)) with
  | true =>
      simp only [h1, if_true]
      have hc := h1
      simp only [Bool.and_eq_true, List.all_eq_true, beq_iff_eq] at hc
      have hno : ¬ (g.allTasksAdded = false ∨
          ∃ t ∈ g.taskRecs, isTerminal t.state = false) := by
        intro h
        rcases h with h | ⟨t, ht, hterm⟩
        · rw [hc.1] at h
          cases h
        · rw [hc.2 t ht] at hterm
          cases hterm
      simp [hno]
  | false =>
      simp only [h1, Bool.false_eq_true, if_false]
      cases h2 : (!g.allTasksAdded || g.taskRecs.any (fun t => !isTerminal t.state)) with
      | true =>
          simp only [h2, if_true]
          simp [hb2.mp h2]
      | false =>
          have hno : ¬ (g.allTasksAdded = false ∨
              ∃ t ∈ g.taskRecs, isTerminal t.state = false) := by
            intro hc
            rw [hb2.mpr hc] at h2
            cases h2
          simp only [h2, Bool.false_eq_true, if_false]
          cases h3 : g.taskRecs.find?
              (fun t => isTerminal t.state && !(t.state == ProcessStateEnum.SUCCEEDED)) with
          | some t =>
              have hpred := List.find?_some h3
              simp only [Bool.and_eq_true] at hpred
              simp only [h3]
              constructor
              · intro he
                exact absurd he (isTerminal_ne_running t.state hpred.1)
              · intro hc
                exact absurd hc hno
          | none =>
              simp only [h3]
              simp [hno]

/-- C5: synthetic grid-job state is a function of the task queue.  Per id,
`get_simple_job_states` answers: a stored non-grid job's own state; for a
stored grid job, SUCCEEDED iff the queue is closed and every task is SUCCEEDED
(hence terminal), RUNNING iff the queue is still open or some task is
non-terminal; unknown ids answer UNKNOWN. -/
theorem synthetic_grid_job_state :
    (∀ (st : CoordState) (i : String) (r : JobRec), lookupKey st.jobs i = some r →
      isGridJob r.job = false → get_simple_job_state st i = r.state) ∧
    (∀ (st : CoordState) (i : String) (r : JobRec) (g : GridJobRec),
      lookupKey st.jobs i = some r → isGridJob r.job = true →
      lookupKey st.gridJobs i = some g →
      ((get_simple_job_state st i = ProcessStateEnum.SUCCEEDED ↔
        (g.allTasksAdded = true ∧ ∀ t ∈ g.taskRecs,
          isTerminal t.state = true ∧ t.state = ProcessStateEnum.SUCCEEDED)) ∧
       (get_simple_job_state st i = ProcessStateEnum.RUNNING ↔
        (g.allTasksAdded = false ∨ ∃ t ∈ g.taskRecs, isTerminal t.state = false)))) ∧
    (∀ (st : CoordState) (i : String), lookupKey st.jobs i = none →
      get_simple_job_state st i = ProcessStateEnum.UNKNOWN) ∧
    (∀ (st : CoordState) (ids : List String),
      get_simple_job_states st ids = ids.map (get_simple_job_state st)) := by
  refine ⟨?_, ?_, ?_, fun _ _ => rfl⟩
  · intro st i r h hng
    simp [get_simple_job_state, h, hng]
  · intro st i r g hj hg hgr
    have hval : get_simple_job_state st i = syntheticGridState g := by
      simp [get_simple_job_state, hj, hg, hgr]
    rw [hval]
    constructor
    · rw [syntheticGridState_succeeded_iff]
      constructor
      · intro ⟨ha, hall⟩
        exact ⟨ha, fun t ht => ⟨by rw [hall t ht]; rfl, hall t ht⟩⟩
      · intro ⟨ha, hall⟩
        exact ⟨ha, fun t ht => (hall t ht).2⟩
    · exact syntheticGridState_running_iff g
  · intro st i h
    simp [get_simple_job_state, h]

/-- A grid job request with an embedded (closed, empty) grid spec. -/
def gridSampleJob : Job :=
  { sampleJob "g" with jobSpec := some (JobSpec.pyGrid ⟨⟨none, []⟩, [], true⟩) }

/-- A closed grid-task queue whose one task is SUCCEEDED. -/
def succeededGridRec : GridJobRec :=
  ⟨[], [⟨0, [], ProcessStateEnum.SUCCEEDED, some "w"⟩], true, []⟩

/-- A coordinator state holding the grid job "g" with `succeededGridRec`. -/
def gridCoordState : CoordState :=
  { jobs := [("g", ⟨gridSampleJob, ProcessStateEnum.RUN_REQUESTED⟩)],
    gridJobs := [("g", succeededGridRec)], agents := [], creds := [] }

/-- A coordinator state holding only the non-grid job "j", RUNNING. -/
def simpleCoordState : CoordState :=
  { jobs := [("j", ⟨sampleJob "j", ProcessStateEnum.RUNNING⟩)],
    gridJobs := [], agents := [], creds := [] }

/-- Witness for C5: a closed grid job whose only task is SUCCEEDED reads
SUCCEEDED; a non-grid job reads its stored state. -/
theorem synthetic_grid_job_state_witness :
    get_simple_job_state gridCoordState "g" = ProcessStateEnum.SUCCEEDED ∧
    get_simple_job_state simpleCoordState "j" = ProcessStateEnum.RUNNING := by
  constructor
  · exact (synthetic_grid_job_state.2.1 gridCoordState "g"
      ⟨gridSampleJob, ProcessStateEnum.RUN_REQUESTED⟩ succeededGridRec
      (by rfl) (by rfl) (by rfl)).1.mpr
      ⟨rfl, by
        intro t ht
        simp only [succeededGridRec, List.mem_singleton] at ht
        subst ht
        exact ⟨rfl, rfl⟩⟩
  · exact synthetic_grid_job_state.1 simpleCoordState "j"
      ⟨sampleJob "j", ProcessStateEnum.RUNNING⟩ (by rfl) (by rfl)

/-! ## Theorems about credential lookup and agent affinity -/

theorem lookupCredential_none_iff (store : List CredEntry) (s : CredService)
    (url : String) :
    lookupCredential store s url = none ↔
      ∀ e ∈ store, credMatches e s url = false := by
  induction store with
  | nil => simp [lookupCredential]
  | cons e rest ih =>
      simp only [lookupCredential]
      by_cases hm : credMatches e s url = true
      · rw [if_pos hm]
        constructor
        · intro h
          exfalso
          cases hr : lookupCredential rest s url with
          | none => rw [hr] at h; cases h
          | some e2 =>
              rw [hr] at h
              dsimp only at h
              by_cases hlt : e.serviceUrl.length < e2.serviceUrl.length
              · rw [if_pos hlt] at h; cases h
              · rw [if_neg hlt] at h; cases h
        · intro hall
          exact absurd hm (by simp [hall e (List.mem_cons_self _ _)])
      · rw [if_neg hm]
        rw [ih]
        constructor
        · intro h x hx
          rcases List.mem_cons.mp hx with rfl | hx
          · exact Bool.not_eq_true _ ▸ (by simpa using hm)
          · exact h x hx
        · intro h x hx
          exact h x (List.mem_cons_of_mem _ hx)

theorem lookupCredential_some_spec (store : List CredEntry) (s : CredService)
    (url : String) :
    ∀ r, lookupCredential store s url = some r →
      credMatches r s url = true ∧
      (∀ e ∈ store, credMatches e s url = true →
        e.serviceUrl.length ≤ r.serviceUrl.length) ∧
      ∃ l1 l2, store = l1 ++ r :: l2 ∧
        ∀ e ∈ l1, credMatches e s url = true →
          e.serviceUrl.length < r.serviceUrl.length := by
  induction store with
  | nil => intro r h; cases h
  | cons e rest ih =>
      intro r h
      simp only [lookupCredential] at h
      by_cases hm : credMatches e s url = true
      · rw [if_pos hm] at h
        cases hr : lookupCredential rest s url with
        | none =>
            rw [hr] at h
            dsimp only at h
            injection h with he
            subst he
            refine ⟨hm, ?_, ⟨[], rest, rfl, by simp⟩⟩
            intro x hx hmx
            rcases List.mem_cons.mp hx with rfl | hx
            · exact le_refl _
            · exact absurd hmx
                (by simp [(lookupCredential_none_iff rest s url).mp hr x hx])
        | some e2 =>
            rw [hr] at h
            dsimp only at h
            obtain ⟨hm2, hmax2, l1, l2, hsplit, hfirst⟩ := ih e2 hr
            by_cases hlt : e.serviceUrl.length < e2.serviceUrl.length
            · rw [if_pos hlt] at h
              injection h with he
              subst he
              refine ⟨hm2, ?_, ⟨e :: l1, l2, by rw [hsplit]; rfl, ?_⟩⟩
              · intro x hx hmx
                rcases List.mem_cons.mp hx with rfl | hx
                · exact le_of_lt hlt
                · exact hmax2 x hx hmx
              · intro x hx hmx
                rcases List.mem_cons.mp hx with rfl | hx
                · exact hlt
                · exact hfirst x hx hmx
            · rw [if_neg hlt] at h
              injection h with he
              subst he
              refine ⟨hm, ?_, ⟨[], rest, rfl, by simp⟩⟩
              intro x hx hmx
              rcases List.mem_cons.mp hx with rfl | hx
              · exact le_refl _
              · exact le_trans (hmax2 x hx hmx) (not_lt.mp hlt)
      · rw [if_neg hm] at h
        obtain ⟨hm2, hmax2, l1, l2, hsplit, hfirst⟩ := ih r h
        refine ⟨hm2, ?_, ⟨e :: l1, l2, by rw [hsplit]; rfl, ?_⟩⟩
        · intro x hx hmx
          rcases List.mem_cons.mp hx with rfl | hx
          · exact absurd hmx hm
          · exact hmax2 x hx hmx
        · intro x hx hmx
          rcases List.mem_cons.mp hx with rfl | hx
          · exact absurd hmx hm
          · exact hfirst x hx hmx

/-- C9: credential lookup returns the most specific match.  Lookup answers
nothing iff no stored entry matches (same service, stored URL a prefix of the
query); when it answers an entry, that entry matches, its URL prefix is
longest among all matching entries, and every earlier-inserted matching entry
is strictly shorter — so among tied longest matches the earliest-inserted one
wins. -/
theorem credential_most_specific_match :
    (∀ (store : List CredEntry) (s : CredService) (url : String),
      lookupCredential store s url = none ↔
        ∀ e ∈ store, credMatches e s url = false) ∧
    (∀ (store : List CredEntry) (s : CredService) (url : String) (r : CredEntry),
      lookupCredential store s url = some r →
        credMatches r s url = true ∧
        (∀ e ∈ store, credMatches e s url = true →
          e.serviceUrl.length ≤ r.serviceUrl.length) ∧
        ∃ l1 l2, store = l1 ++ r :: l2 ∧
          ∀ e ∈ l1, credMatches e s url = true →
            e.serviceUrl.length < r.serviceUrl.length) :=
  ⟨lookupCredential_none_iff, fun store s url r h => lookupCredential_some_spec store s url r h⟩

/-- A stored git credential for all of github. -/
def credEntryA : CredEntry :=
  ⟨CredService.git, "https://github.com",
   CredSource.serverAvailableFile CredType.sshKey "/keyA"⟩

/-- A stored git credential specific to the meadowdata org. -/
def credEntryB : CredEntry :=
  ⟨CredService.git, "https://github.com/meadowdata",
   CredSource.awsSecret CredType.sshKey "secretB"⟩

/-- A stored docker credential. -/
def credEntryC : CredEntry :=
  ⟨CredService.docker, "https://registry",
   CredSource.serverAvailableFile CredType.usernamePassword "/keyC"⟩

def credStore0 : List CredEntry := [credEntryA, credEntryB, credEntryC]

/-- Witness for C9: on a concrete store the longer matching git prefix wins,
and the returned entry satisfies the most-specific property. -/
theorem credential_most_specific_match_witness :
    lookupCredential credStore0 CredService.git
      "https://github.com/meadowdata/meadowflow" = some credEntryB ∧
    credMatches credEntryB CredService.git
      "https://github.com/meadowdata/meadowflow" = true ∧
    ∀ e ∈ credStore0, credMatches e CredService.git
        "https://github.com/meadowdata/meadowflow" = true →
      e.serviceUrl.length ≤ credEntryB.serviceUrl.length :=
  ⟨by rfl,
   (credential_most_specific_match.2 credStore0 CredService.git
      "https://github.com/meadowdata/meadowflow" credEntryB (by rfl)).1,
   (credential_most_specific_match.2 credStore0 CredService.git
      "https://github.com/meadowdata/meadowflow" credEntryB (by rfl)).2.1⟩

/-- C10: the empty string is the no-affinity encoding at the agent interface:
an agent registered with empty `job_id` is generic (its affinity gate accepts
every job), a non-empty `job_id` restricts the gate to exactly that job, the
full fit test only accepts a job on an agent that is generic or affine to that
job's id, and no agent can be job-specific to the empty job id. -/
theorem empty_job_id_no_affinity :
    (∀ jobId : String, affinityAllows "" jobId = true) ∧
    (∀ affinity jobId : String, affinity ≠ "" →
      (affinityAllows affinity jobId = true ↔ jobId = affinity)) ∧
    (∀ (a : AgentRec) (j : Job), jobFitsAgent a j = true →
      a.jobAffinity = "" ∨ j.jobId = a.jobAffinity) ∧
    (∀ affinity : String, ¬ jobSpecificTo affinity "") := by
  refine ⟨fun _ => rfl, ?_, ?_, ?_⟩
  · intro aff j h
    simp only [affinityAllows, Bool.or_eq_true, beq_iff_eq]
    constructor
    · intro hc
      rcases hc with hc | hc
      · exact absurd hc h
      · exact hc.symm
    · intro hc
      exact Or.inr hc.symm
  · intro a j h
    simp only [jobFitsAgent, Bool.and_eq_true, affinityAllows, Bool.or_eq_true,
      beq_iff_eq] at h
    rcases h.1 with hc | hc
    · exact Or.inl hc
    · exact Or.inr hc.symm
  · intro aff hc
    exact hc.1 hc.2

/-- Witness for C10 at concrete affinity strings and a concrete agent. -/
theorem empty_job_id_no_affinity_witness :
    affinityAllows "" "j1" = true ∧
    (affinityAllows "j1" "j2" = true ↔ ("j2" : String) = "j1") ∧
    ((freshAgent [] "").jobAffinity = "" ∨
      (sampleJob "x").jobId = (freshAgent [] "").jobAffinity) ∧
    ¬ jobSpecificTo "w" "" :=
  ⟨empty_job_id_no_affinity.1 "j1",
   empty_job_id_no_affinity.2.1 "j1" "j2" (by decide),
   empty_job_id_no_affinity.2.2.1 (freshAgent [] "") (sampleJob "x") (by rfl),
   empty_job_id_no_affinity.2.2.2 "w"⟩

end Meadowgrid
